import Mathlib

/-!
Verification development for the QuantME transformation framework
(matching engine and graph-splicing engine).

The JavaScript sources embedded here are
`replacement/QuantMEMatcher.js` (attribute and detector matching) and
`quantme/replacement/QuantMETransformator.js` (task discovery, template
resolution, fragment splicing, orchestration).  JavaScript `undefined`
for an attribute value is modelled as `Option.none`; a thrown JavaScript
exception is modelled as the `Res.err` outcome; the diagram editor
(bpmn-js) is an external collaborator and is modelled from its interface
description: host operations create elements with host-assigned fresh
identifiers, and a host operation applied to an unresolved (undefined)
element fails, which the calling code does not guard.
-/

namespace QuantME

/-- The JavaScript `String.prototype.trim()` used by the matcher,
modelled on the character list: leading and trailing whitespace
characters are removed. -/
def jsTrim (s : String) : String :=
  String.mk (((s.data.dropWhile Char.isWhitespace).reverse.dropWhile
    Char.isWhitespace).reverse)

/-- The JavaScript `String.prototype.includes(",")` test used by the
matcher, modelled on the character list. -/
def jsIncludes (s : String) (c : Char) : Bool :=
  s.data.contains c

/-- Helper of `jsSplit`: split a character list at every separator,
accumulating the current segment in reverse. -/
def jsSplitAux (sep : Char) : List Char → List Char → List String
  | [], acc => [String.mk acc.reverse]
  | c :: rest, acc =>
    if c == sep then String.mk acc.reverse :: jsSplitAux sep rest []
    else jsSplitAux sep rest (c :: acc)

/-- The JavaScript `String.prototype.split(",")` used by the matcher,
modelled on the character list (empty segments are kept, as in
JavaScript). -/
def jsSplit (s : String) (sep : Char) : List String :=
  jsSplitAux sep s.data []

/-- The JavaScript `String.prototype.startsWith` used by the task
discovery and the matcher, modelled on the character lists. -/
def jsStartsWith (s pre : String) : Bool :=
  pre.data.isPrefixOf s.data

/-- Attribute matching from `QuantMEMatcher.matchesProperty`:
the detector must define the attribute; the one-character wildcard
token matches anything; an absent task value matches iff the attribute
is optional; a comma-separated detector value matches if one trimmed
entry equals the trimmed task value; otherwise trimmed equality. -/
def matchesProperty (detectorProperty taskProperty : Option String) (required : Bool) : Bool :=
  match detectorProperty with
  | none => false
  | some dv =>
    if dv = "*" then true
    else
      match taskProperty with
      | none => !required
      | some tv =>
        if jsIncludes dv ',' then
          (jsSplit dv ',').any fun v => jsTrim v == jsTrim tv
        else
          jsTrim dv == jsTrim tv

/-- Loop body of `QuantMEMatcher.matchAlternativeProperties`: scan the
positionally paired (detector, task) values, remembering the unique
position whose task value is defined; a second defined position fails
immediately; at the end the remembered pair is checked with
`matchesProperty` and `required = true`. -/
def matchAlternativeGo :
    List (Option String × Option String) → Option (Option String × Option String) → Bool
  | [], none => matchesProperty none none true
  | [], some (d, t) => matchesProperty d t true
  | (d, t) :: rest, acc =>
    match t with
    | none => matchAlternativeGo rest acc
    | some tv =>
      match acc with
      | some _ => false
      | none => matchAlternativeGo rest (some (d, some tv))

/-- `QuantMEMatcher.matchAlternativeProperties`: mismatched lengths fail;
otherwise exactly one task position may be defined and is compared against
the detector value at the same position with `required = true`. -/
def matchAlternativeProperties (detectorProperties taskProperties : List (Option String)) : Bool :=
  if detectorProperties.length ≠ taskProperties.length then false
  else matchAlternativeGo (detectorProperties.zip taskProperties) none

/-- A moddle element of a parsed BPMN fragment: the structural fields
(`$type`, `id`, the `sourceRef`/`targetRef`/`attachedToRef` references
stored by referenced id, the `di.isExpanded` marker, nested
`flowElements`, attached `artifacts`) are record components; the open
mapping of domain attributes (string keys to string values, absent keys
being JavaScript `undefined`) is the `props` association list. -/
inductive Elem where
  | mk (type id : String) (sourceRef targetRef attachedToRef : Option String)
      (isExpanded : Bool) (props : List (String × String))
      (flowElements : Option (List Elem)) (artifacts : Option (List Elem))

/-- The `$type` tag of an element. -/
def Elem.type : Elem → String
  | .mk t _ _ _ _ _ _ _ _ => t

/-- The template-local `id` of an element. -/
def Elem.id : Elem → String
  | .mk _ i _ _ _ _ _ _ _ => i

/-- `sourceRef.id` of an edge element (`none` models an absent reference). -/
def Elem.sourceRef : Elem → Option String
  | .mk _ _ s _ _ _ _ _ _ => s

/-- `targetRef.id` of an edge element. -/
def Elem.targetRef : Elem → Option String
  | .mk _ _ _ t _ _ _ _ _ => t

/-- `attachedToRef.id` of a boundary event element. -/
def Elem.attachedToRef : Elem → Option String
  | .mk _ _ _ _ a _ _ _ _ => a

/-- The `di.isExpanded` marker of a sub process element. -/
def Elem.isExpanded : Elem → Bool
  | .mk _ _ _ _ _ e _ _ _ => e

/-- The open attribute mapping of the element. -/
def Elem.props : Elem → List (String × String)
  | .mk _ _ _ _ _ _ p _ _ => p

/-- The nested `flowElements` collection (children of a container). -/
def Elem.flowElements : Elem → Option (List Elem)
  | .mk _ _ _ _ _ _ _ f _ => f

/-- The `artifacts` collection of a container. -/
def Elem.artifacts : Elem → Option (List Elem)
  | .mk _ _ _ _ _ _ _ _ a => a

/-- Attribute access on a moddle element (`task.algorithm` and similar):
the value stored under the key, `none` when absent. -/
def Elem.attr (e : Elem) (k : String) : Option String :=
  (e.props.find? fun p => p.1 == k).map fun p => p.2

/-- `Utilities.isQuantMETask`: the `$type` starts with the `quantme:` prefix. -/
def isQuantMETask (task : Elem) : Bool :=
  jsStartsWith task.type "quantme:"

/-- `Utilities.getSingleFlowElement`: the single flow element of a process,
`none` when the process does not contain exactly one flow element. -/
def getSingleFlowElement (process : Elem) : Option Elem :=
  match process.flowElements with
  | some [e] => some e
  | _ => none

/-- `QuantMEMatcher.taskMatchesDetector`: the detector element and the task
must have the same `$type`; a per-type rule set then compares the domain
attributes, unsupported types never match. -/
def taskMatchesDetector (detectorElement task : Elem) : Bool :=
  if detectorElement.type ≠ task.type then false
  else
    match task.type with
    | "quantme:QuantumComputationTask" =>
      matchesProperty (detectorElement.attr "algorithm") (task.attr "algorithm") true
      && matchesProperty (detectorElement.attr "provider") (task.attr "provider") false
    | "quantme:QuantumCircuitLoadingTask" =>
      matchAlternativeProperties
        [detectorElement.attr "quantumCircuit", detectorElement.attr "url"]
        [task.attr "quantumCircuit", task.attr "url"]
    | "quantme:DataPreparationTask" =>
      matchesProperty (detectorElement.attr "encodingSchema") (task.attr "encodingSchema") true
      && matchesProperty (detectorElement.attr "programmingLanguage")
          (task.attr "programmingLanguage") true
    | "quantme:OracleExpansionTask" =>
      matchesProperty (detectorElement.attr "oracleId") (task.attr "oracleId") true
      && matchesProperty (detectorElement.attr "programmingLanguage")
          (task.attr "programmingLanguage") true
      && matchAlternativeProperties
          [detectorElement.attr "oracleCircuit", detectorElement.attr "oracleURL"]
          [task.attr "oracleCircuit", task.attr "oracleURL"]
    | "quantme:QuantumCircuitExecutionTask" =>
      matchesProperty (detectorElement.attr "provider") (task.attr "provider") false
      && matchesProperty (detectorElement.attr "qpu") (task.attr "qpu") false
      && matchesProperty (detectorElement.attr "shots") (task.attr "shots") false
      && matchesProperty (detectorElement.attr "programmingLanguage")
          (task.attr "programmingLanguage") true
    | "quantme:ReadoutErrorMitigationTask" =>
      matchesProperty (detectorElement.attr "unfoldingTechnique")
          (task.attr "unfoldingTechnique") true
      && matchesProperty (detectorElement.attr "qpu") (task.attr "qpu") true
      && matchesProperty (detectorElement.attr "maxAge") (task.attr "maxAge") false
    | _ => false

/-- A QuantME replacement model.  The `detector` and `replacement` fields
hold the root processes of the two fragments; in the source they are XML
strings handed to the external serialization collaborator, whose parsing
is out of scope, so the parsed root process is stored directly
(`none` for `replacement` models an undefined replacement fragment). -/
structure QRM where
  detector : Elem
  replacement : Option Elem

/-- `QuantMEMatcher.matchesQRM`: the detector must contain exactly one
flow element of a QuantME type; that element is then compared with the
task by `taskMatchesDetector`. -/
def matchesQRM (qrm : QRM) (task : Elem) : Bool :=
  match getSingleFlowElement qrm.detector with
  | none => false
  | some detectorElement =>
    if !isQuantMETask detectorElement then false
    else taskMatchesDetector detectorElement task

/-- `QuantMETransformator.getMatchingQRM`: scan the stored QRMs in
collection order, returning the first whose detector matches the task. -/
def getMatchingQRM (qrms : List QRM) (task : Elem) : Option QRM :=
  qrms.find? fun qrm => matchesQRM qrm task

/-- `QuantMETransformator.isReplaceable` (the exported check): fail when
required attributes are missing; then look for a matching QRM, and — as in
the source, whose final statement is `return true` with a FIXME remark —
fall through to `true` also when no QRM matched.  The required-attribute
check lives in `QuantMEAttributeChecker.js`, outside the embedded core,
and is abstracted as a boolean parameter. -/
def isReplaceable (requiredAttributesAvailable : Elem → Bool) (qrms : List QRM)
    (element : Elem) : Bool :=
  if !requiredAttributesAvailable element then false
  else if qrms.any fun qrm => matchesQRM qrm element then true
  else true

/-- A diagram element held by the editor's element registry: the
host-assigned id, the `$type`, the containment parent, the endpoints of a
connection, the host of an attached boundary event, the expansion marker,
the copied domain attributes, and the input parameters transferred from a
replaced task. -/
structure DElem where
  id : String
  type : String
  parent : Option String := none
  source : Option String := none
  target : Option String := none
  host : Option String := none
  expanded : Bool := false
  props : List (String × String) := []
  inputParams : List (String × String) := []
deriving Repr, DecidableEq

/-- The target diagram: the elements known to the element registry and the
state of the host's fresh-identifier supply. -/
structure Diagram where
  counter : Nat
  elements : List DElem
deriving Repr, DecidableEq

/-- Modelled from the spec: the graph host assigns fresh identifiers to
inserted elements; the supply is injective (`freshId_injective`). -/
def freshId (n : Nat) : String :=
  String.mk (List.replicate (n + 1) 'e')

/-- `elementRegistry.get`: look an element up by id; `get` applied to
JavaScript `undefined` yields `undefined`. -/
def registryGet (d : Diagram) (i : Option String) : Option DElem :=
  match i with
  | none => none
  | some s => d.elements.find? fun e => e.id == s

/-- The identifier map of one splice operation: template-local ids mapped
to the host-assigned ids of the inserted elements.  A JavaScript object
write is a prepend; lookup takes the first (most recent) binding. -/
abbrev IdMap : Type := List (String × String)

/-- `idMap[k]`: the most recent binding of the key, `none` when unbound. -/
def idLookup (m : IdMap) (k : String) : Option String :=
  (List.find? (fun p => p.1 == k) m).map fun p => p.2

/-- `idMap[k] = v`. -/
def idInsert (m : IdMap) (k v : String) : IdMap :=
  (k, v) :: m

/-- Outcome of a piece of embedded JavaScript: a value, a thrown
exception (`err`), or exhaustion of the recursion fuel of the embedding
(`fuel`, never produced by the modelled program itself). -/
inductive Res (α : Type) where
  | ok : α → Res α
  | err : Res α
  | fuel : Res α
deriving Repr, DecidableEq

/-- Result record of `insertShape`: the aggregated success flag, the
accumulated identifier map, the element inserted for this fragment node,
and the diagram after the insertion (the source mutates the editor's
diagram in place; the embedding threads it explicitly). -/
structure InsRes where
  success : Bool
  idMap : IdMap
  element : DElem
  diagram : Diagram
deriving Repr, DecidableEq

/-- Modelled from the spec: `modeling.createShape` — the graph host
creates a fresh node of the given type under the given parent. -/
def createShape (d : Diagram) (type : String) (parent : DElem) : DElem × Diagram :=
  let el : DElem := { id := freshId d.counter, type := type, parent := some parent.id }
  (el, { counter := d.counter + 1, elements := el :: d.elements })

/-- Modelled from the spec: `modeling.connect` — the graph host creates a
connection of the given type between two previously created elements; the
call fails (the failure surfacing as a thrown error in the unguarded
caller) when an endpoint is unresolved. -/
def connect (d : Diagram) (source target : Option DElem) (type : String) :
    Res (DElem × Diagram) :=
  match source, target with
  | some s, some t =>
    let el : DElem := { id := freshId d.counter, type := type,
                        source := some s.id, target := some t.id }
    .ok (el, { counter := d.counter + 1, elements := el :: d.elements })
  | _, _ => .err

/-- Rewrite the references of existing diagram elements from a replaced
element's id to its replacement's id (the host retains attached sequence
flows, associations and attachments across `replaceElement`). -/
def retargetRefs (oldId newId : String) (e : DElem) : DElem :=
  { e with
    source := if e.source == some oldId then some newId else e.source
    target := if e.target == some oldId then some newId else e.target
    host := if e.host == some oldId then some newId else e.host }

/-- Modelled from the spec: `bpmnReplace.replaceElement` — the graph host
replaces an existing element by a fresh element of the given type,
retaining containment and re-attaching existing edges; applied to an
unresolved (undefined) element the call fails. -/
def replaceElement (d : Diagram) (old : Option DElem) (type : String) :
    Res (DElem × Diagram) :=
  match old with
  | none => .err
  | some o =>
    let el : DElem := { id := freshId d.counter, type := type, parent := o.parent }
    .ok (el, { counter := d.counter + 1,
               elements := el :: ((d.elements.erase o).map (retargetRefs o.id el.id)) })

/-- `modeling.updateProperties`: merge the given attribute map into the
properties of the diagram element with the given id. -/
def updateProps (d : Diagram) (elId : String) (ps : List (String × String)) : Diagram :=
  { d with elements := d.elements.map fun e =>
      if e.id == elId then { e with props := ps ++ e.props } else e }

/-- Mark the diagram element with the given id as expanded
(`businessObject.di.isExpanded = true`). -/
def setExpanded (d : Diagram) (elId : String) : Diagram :=
  { d with elements := d.elements.map fun e =>
      if e.id == elId then { e with expanded := true } else e }

/-- Attach the boundary element with the given id to its host
(`updateProperties(element, attachedToRef)` together with
`element.host = hostElement`). -/
def setHost (d : Diagram) (elId hostId : String) : Diagram :=
  { d with elements := d.elements.map fun e =>
      if e.id == elId then { e with host := some hostId } else e }

/-- `Utilities.isFlowLikeElement`: the types represented as edges in the
diagram. -/
def isFlowLikeElement (type : String) : Bool :=
  type == "bpmn:SequenceFlow" || type == "bpmn:Association"

/-- Children deferred by the partition loop of `insertChildElements`:
sequence flows and boundary events are skipped in the first pass. -/
def isDeferredChild (e : Elem) : Bool :=
  e.type == "bpmn:SequenceFlow" || e.type == "bpmn:BoundaryEvent"

/-- `Utilities.getPropertiesToCopy`: the attributes carried over onto an
inserted element — the open attribute map of the fragment element; the
source excludes the `$`-prefixed structural markers, the regenerated
`id`, and the `flowElements`/`artifacts` collections, which the embedding
keeps outside `Elem.props` as record fields. -/
def getPropertiesToCopy (element : Elem) : List (String × String) :=
  element.props

/-- One pass of a child-insertion loop of
`insertChildElements`/`insertShape`: insert each list entry with the
given insertion function, accumulating the success conjunction and the
identifier map; with `skipDeferred` set, sequence flows and boundary
events are skipped (they are pushed to the deferred buckets in the
source).  An insertion error aborts the loop (nothing catches it). -/
def insertLoopAux (ins : Diagram → Elem → IdMap → Res InsRes) (skipDeferred : Bool) :
    List Elem → Diagram → IdMap → Bool → Res (Bool × IdMap × Diagram)
  | [], d, m, s => .ok (s, m, d)
  | e :: rest, d, m, s =>
    if skipDeferred && isDeferredChild e then
      insertLoopAux ins skipDeferred rest d m s
    else
      match ins d e m with
      | .ok r => insertLoopAux ins skipDeferred rest r.diagram r.idMap (s && r.success)
      | .err => .err
      | .fuel => .fuel

/-- Body of `insertChildElements`: no child collection yields immediate
success; otherwise the children are processed in three buckets — plain
nodes first, then boundary events, then sequence flows — threading the
success flag and the identifier map. -/
def insertChildElementsAux (ins : Diagram → Elem → IdMap → Res InsRes)
    (newElement : Elem) (d : Diagram) (m : IdMap) : Res (Bool × IdMap × Diagram) :=
  match newElement.flowElements with
  | none => .ok (true, m, d)
  | some flowElements =>
    match insertLoopAux ins true flowElements d m true with
    | .ok (s1, m1, d1) =>
      match insertLoopAux ins false
          (flowElements.filter fun e => e.type == "bpmn:BoundaryEvent") d1 m1 s1 with
      | .ok (s2, m2, d2) =>
        insertLoopAux ins false
          (flowElements.filter fun e => e.type == "bpmn:SequenceFlow") d2 m2 s2
      | .err => .err
      | .fuel => .fuel
    | .err => .err
    | .fuel => .fuel

/-- The element-creation step of `insertShape`: a non-edge element is
replaced in place (when `replace` is set) or created fresh under the
parent; an edge element is connected between the elements found under the
identifier-map images of its `sourceRef`/`targetRef` (an absent reference
is a dereference of `undefined` and throws). -/
def createElementStep (d : Diagram) (parent : Option DElem) (newElement : Elem)
    (idMap : IdMap) (replace : Bool) (oldElement : Option String) : Res (DElem × Diagram) :=
  if !isFlowLikeElement newElement.type then
    if replace then
      replaceElement d (registryGet d oldElement) newElement.type
    else
      match parent with
      | some par => .ok (createShape d newElement.type par)
      | none => .err
  else
    match newElement.sourceRef, newElement.targetRef with
    | some sid, some tid =>
      connect d (registryGet d (idLookup idMap sid)) (registryGet d (idLookup idMap tid))
        newElement.type
    | _, _ => .err

/-- The per-element update steps of `insertShape` after creation:
carry over the expansion marker of an expanded sub process, attach a
boundary event to the identifier-map image of its `attachedToRef` (a
missing host is a dereference of `undefined` and throws), and copy the
carry-over attributes onto the new element. -/
def applyElementUpdates (d1 : Diagram) (element : DElem) (newElement : Elem)
    (idMap1 : IdMap) : Res Diagram :=
  let d2 :=
    if newElement.type == "bpmn:SubProcess" && newElement.isExpanded then
      setExpanded d1 element.id
    else d1
  if newElement.type == "bpmn:BoundaryEvent" then
    match newElement.attachedToRef with
    | none => .err
    | some aid =>
      match registryGet d2 (idLookup idMap1 aid) with
      | none => .err
      | some hostElement =>
        .ok (updateProps (setHost d2 element.id hostElement.id) element.id
          (getPropertiesToCopy newElement))
  else .ok (updateProps d2 element.id (getPropertiesToCopy newElement))

/-- `QuantMETransformator.insertShape`: insert a fragment element and its
children into the diagram.  The element is produced by
`createElementStep`, its new binding is recorded in the identifier map,
`applyElementUpdates` carries over expansion, boundary attachment and
attributes, the children are inserted per `insertChildElementsAux`, and
the artifacts are appended, aggregating the success flag and the
identifier map.  The `fuel` argument bounds the recursion depth of the
embedding and is decremented at each nested `insertShape` call. -/
def insertShape : Nat → Diagram → Option DElem → Elem → IdMap → Bool → Option String →
    Res InsRes
  | 0, _, _, _, _, _, _ => .fuel
  | fuel + 1, d, parent, newElement, idMap, replace, oldElement =>
    match createElementStep d parent newElement idMap replace oldElement with
    | .err => .err
    | .fuel => .fuel
    | .ok (element, d1) =>
      let idMap1 := idInsert idMap newElement.id element.id
      match applyElementUpdates d1 element newElement idMap1 with
      | .err => .err
      | .fuel => .fuel
      | .ok d4 =>
        let ins : Diagram → Elem → IdMap → Res InsRes := fun dc e mc =>
          insertShape fuel dc (some element) e mc false none
        match insertChildElementsAux ins newElement d4 idMap1 with
        | .err => .err
        | .fuel => .fuel
        | .ok (success, m5, d5) =>
          match newElement.artifacts with
          | none => .ok ⟨success, m5, element, d5⟩
          | some artifacts =>
            match insertLoopAux ins false artifacts d5 m5 success with
            | .err => .err
            | .fuel => .fuel
            | .ok (s6, m6, d6) => .ok ⟨s6, m6, element, d6⟩

/-- `QuantMETransformator.insertChildElements` as called on an already
inserted element: the children of `newElement` are inserted with `element`
as their parent, at the given recursion fuel. -/
def insertChildElements (fuel : Nat) (d : Diagram) (element : DElem) (newElement : Elem)
    (idMap : IdMap) : Res (Bool × IdMap × Diagram) :=
  insertChildElementsAux
    (fun dc e mc => insertShape fuel dc (some element) e mc false none)
    newElement d idMap

/-- `QuantMETransformator.getQuantMETasks`: walk the process, collecting
every `quantme:`-typed flow element together with the registry element of
its immediate parent process, and recursing into `bpmn:SubProcess`
children in place; `fuel` bounds the nesting depth of the embedding. -/
def getQuantMETasks (fuel : Nat) (reg : String → Option DElem) (process : Elem) :
    List (Elem × Option DElem) :=
  match fuel with
  | 0 => []
  | fuel + 1 =>
    let processBo := reg process.id
    (process.flowElements.getD []).flatMap fun flowElement =>
      (if jsStartsWith flowElement.type "quantme:" then [(flowElement, processBo)] else [])
      ++ (if flowElement.type == "bpmn:SubProcess" then
            getQuantMETasks fuel reg flowElement
          else [])

/-- The containers of a process graph: the process itself together with
every nested `bpmn:SubProcess`, in pre-order; `fuel` bounds the nesting
depth of the embedding. -/
def containersOf (fuel : Nat) (process : Elem) : List Elem :=
  match fuel with
  | 0 => []
  | fuel + 1 =>
    process :: (process.flowElements.getD []).flatMap fun flowElement =>
      if flowElement.type == "bpmn:SubProcess" then containersOf fuel flowElement
      else []

/-- Modelled from the spec: `addQuantMEInputParameters` — after the
anchor's replacement, every attribute of the original task is transferred
into the input parameters of the replacement fragment's root element. -/
def addQuantMEInputParameters (d : Diagram) (task : Elem) (elId : String) : Diagram :=
  { d with elements := d.elements.map fun e =>
      if e.id == elId then { e with inputParams := task.props ++ e.inputParams } else e }

/-- `QuantMETransformator.replaceByFragment`: reject an undefined
replacement or one without exactly one top-level flow element, then
replace the task (`replace = true`) by the fragment root with a fresh
identifier map and transfer the task's attributes to the inserted
root's input parameters. -/
def replaceByFragment (fuel : Nat) (d : Diagram) (task : Elem) (parent : Option DElem)
    (replacement : Option Elem) : Res (Bool × Diagram) :=
  match replacement with
  | none => .ok (false, d)
  | some replacementProcess =>
    match getSingleFlowElement replacementProcess with
    | none => .ok (false, d)
    | some replacementElement =>
      match insertShape fuel d parent replacementElement [] true (some task.id) with
      | .err => .err
      | .fuel => .fuel
      | .ok result =>
        .ok (result.success, addQuantMEInputParameters result.diagram task result.element.id)

/-- The observable outcome of one `startReplacementProcess` run. -/
inductive Outcome where
  | noRootElement
  | noTasks
  | abortedResolving (taskId : String)
  | abortedSplicing (taskId : String)
  | done
deriving Repr, DecidableEq

/-- The resolving loop of `startReplacementProcess`: find a matching QRM
for every discovered task in discovery order; the first task without a
matching QRM aborts the loop, reporting that task's id. -/
def resolveAll (qrms : List QRM) :
    List (Elem × Option DElem) → Except String (List ((Elem × Option DElem) × QRM))
  | [] => .ok []
  | (task, parent) :: rest =>
    match getMatchingQRM qrms task with
    | none => .error task.id
    | some qrm =>
      match resolveAll qrms rest with
      | .error i => .error i
      | .ok resolved => .ok (((task, parent), qrm) :: resolved)

/-- The splicing loop of `startReplacementProcess`: replace each resolved
task in discovery order; a replacement reporting failure aborts the loop
with that task's id and no further task is attempted. -/
def spliceLoop (fuel : Nat) (d : Diagram) :
    List ((Elem × Option DElem) × QRM) → Res (Outcome × Diagram)
  | [] => .ok (.done, d)
  | ((task, parent), qrm) :: rest =>
    match replaceByFragment fuel d task parent qrm.replacement with
    | .err => .err
    | .fuel => .fuel
    | .ok (true, d1) => spliceLoop fuel d1 rest
    | .ok (false, d1) => .ok (.abortedSplicing task.id, d1)

/-- `QuantMETransformator.startReplacementProcess`: abort without a root
process; discover the QuantME tasks; return silently when there are none;
resolve a QRM for every task, aborting the whole pass before any splice
when some task has no matching QRM; then splice every task in order and
finally trigger the external layout collaborator (out of scope). -/
def startReplacementProcess (fuel : Nat) (d : Diagram) (rootElement : Option Elem)
    (qrms : List QRM) : Res (Outcome × Diagram) :=
  match rootElement with
  | none => .ok (.noRootElement, d)
  | some root =>
    let replacementTasks := getQuantMETasks fuel (fun i => registryGet d (some i)) root
    if replacementTasks.isEmpty then .ok (.noTasks, d)
    else
      match resolveAll qrms replacementTasks with
      | .error taskId => .ok (.abortedResolving taskId, d)
      | .ok resolved => spliceLoop fuel d resolved

/-- A plain leaf child of a replacement fragment: neither an edge nor a
boundary attachment, and without nested children or artifacts. -/
def plainLeaf (q : Elem) : Prop :=
  isFlowLikeElement q.type = false ∧ q.type ≠ "bpmn:BoundaryEvent"
  ∧ q.flowElements = none ∧ q.artifacts = none

/-- The diagram element produced for a plain leaf fragment element after
the expansion marker and the carry-over attributes have been applied. -/
def plainShapeFinal (k : Nat) (par : DElem) (q : Elem) : DElem :=
  { id := freshId k, type := q.type, parent := some par.id,
    expanded := q.type == "bpmn:SubProcess" && q.isExpanded,
    props := q.props }

/-- The identifier-map bindings produced by inserting a list of plain
leaves starting at fresh-id counter `k`, in insertion order. -/
def plainBindings (k : Nat) : List Elem → IdMap
  | [] => []
  | q :: rest => (q.id, freshId k) :: plainBindings (k + 1) rest

/-- The diagram elements produced by inserting a list of plain leaves
starting at fresh-id counter `k`, in insertion order. -/
def plainShapes (k : Nat) (par : DElem) : List Elem → List DElem
  | [] => []
  | q :: rest => plainShapeFinal k par q :: plainShapes (k + 1) par rest

theorem freshId_injective : Function.Injective freshId := by
  intro a b h
  have hl := congrArg String.length h
  simpa [freshId, String.length] using hl

theorem idLookup_cons (k v : String) (m : IdMap) (y : String) :
    idLookup ((k, v) :: m) y = if k == y then some v else idLookup m y := by
  by_cases h : k == y <;> simp [idLookup, List.find?_cons, h]

theorem find?_eq_of_unique (l : List DElem) (i : String) (x : DElem)
    (hmem : x ∈ l) (hid : x.id = i) (huniq : ∀ y ∈ l, y.id = i → y = x) :
    l.find? (fun e => e.id == i) = some x := by
  induction l with
  | nil => cases hmem
  | cons a rest ih =>
    rcases List.mem_cons.mp hmem with h | h
    · subst h
      simp [List.find?_cons, hid]
    · by_cases ha : a.id = i
      · have : a = x := huniq a (List.mem_cons_self a rest) ha
        subst this
        simp [List.find?_cons, ha]
      · have hb : (a.id == i) = false := by
          simpa using ha
        simp only [List.find?_cons, hb]
        exact ih h fun y hy => huniq y (List.mem_cons_of_mem a hy)

theorem idLookup_of_mem_nodup (m : IdMap) (k v : String)
    (hm : (k, v) ∈ m) (hn : (m.map Prod.fst).Nodup) : idLookup m k = some v := by
  induction m with
  | nil => cases hm
  | cons a rest ih =>
    rcases List.mem_cons.mp hm with h | h
    · subst h
      simp [idLookup, List.find?_cons]
    · have hk : a.1 ≠ k := by
        intro he
        have : k ∈ rest.map Prod.fst := List.mem_map.mpr ⟨(k, v), h, rfl⟩
        rw [List.map_cons] at hn
        exact (List.nodup_cons.mp hn).1 (he ▸ this)
      have hb : (a.1 == k) = false := by simpa using hk
      simp only [idLookup, List.find?_cons, hb]
      exact ih h (by rw [List.map_cons] at hn; exact (List.nodup_cons.mp hn).2)

theorem map_id_of_fixed {α : Type} (f : α → α) (l : List α) (h : ∀ x ∈ l, f x = x) :
    l.map f = l := by
  induction l with
  | nil => rfl
  | cons a rest ih =>
    simp only [List.map_cons]
    rw [h a (List.mem_cons_self a rest), ih fun x hx => h x (List.mem_cons_of_mem a hx)]

theorem createElementStep_fresh (d : Diagram) (par : DElem) (ne : Elem) (m : IdMap)
    (old : Option String) (h : isFlowLikeElement ne.type = false) :
    createElementStep d (some par) ne m false old
      = .ok ({ id := freshId d.counter, type := ne.type, parent := some par.id },
             ⟨d.counter + 1,
              { id := freshId d.counter, type := ne.type, parent := some par.id }
                :: d.elements⟩) := by
  simp [createElementStep, h, createShape]

theorem applyElementUpdates_nonboundary (cnt : Nat) (el : DElem) (rest : List DElem)
    (ne : Elem) (m1 : IdMap) (hb : ne.type ≠ "bpmn:BoundaryEvent")
    (hcol : ∀ x ∈ rest, x.id ≠ el.id) :
    applyElementUpdates ⟨cnt, el :: rest⟩ el ne m1
      = .ok ⟨cnt, { el with
                    expanded := ((ne.type == "bpmn:SubProcess" && ne.isExpanded) || el.expanded),
                    props := ne.props ++ el.props } :: rest⟩ := by
  have hb' : (ne.type == "bpmn:BoundaryEvent") = false := by simpa using hb
  have hfix : ∀ (g : DElem → DElem),
      rest.map (fun e => if e.id == el.id then g e else e) = rest := fun g =>
    map_id_of_fixed _ _ fun x hx => by simp [hcol x hx]
  by_cases hsp : (ne.type == "bpmn:SubProcess" && ne.isExpanded) = true
  · simp [applyElementUpdates, hsp, hb', setExpanded, updateProps, getPropertiesToCopy,
      hfix, Function.comp]
    refine map_id_of_fixed _ _ fun x hx => ?_
    simp [Function.comp, hcol x hx]
  · have hsp' : (ne.type == "bpmn:SubProcess" && ne.isExpanded) = false :=
      Bool.not_eq_true _ ▸ eq_false_of_ne_true hsp
    simp [applyElementUpdates, hsp', hb', setExpanded, updateProps, getPropertiesToCopy,
      hfix, Function.comp]
    refine map_id_of_fixed _ _ fun x hx => ?_
    simp [Function.comp, hcol x hx]

theorem insertShape_plainLeaf (fu : Nat) (d : Diagram) (par : DElem) (q : Elem) (m : IdMap)
    (hq : plainLeaf q)
    (hcol : ∀ el ∈ d.elements, el.id ≠ freshId d.counter) :
    insertShape (fu + 1) d (some par) q m false none
      = .ok ⟨true, idInsert m q.id (freshId d.counter),
             { id := freshId d.counter, type := q.type, parent := some par.id },
             { counter := d.counter + 1,
               elements := plainShapeFinal d.counter par q :: d.elements }⟩ := by
  obtain ⟨h1, h2, h3, h4⟩ := hq
  have hcr := createElementStep_fresh d par q m none h1
  have hup := applyElementUpdates_nonboundary (d.counter + 1)
    { id := freshId d.counter, type := q.type, parent := some par.id } d.elements q
    (idInsert m q.id (freshId d.counter)) h2 (fun x hx => hcol x hx)
  have hup2 : applyElementUpdates
      ⟨d.counter + 1,
       { id := freshId d.counter, type := q.type, parent := some par.id } :: d.elements⟩
      { id := freshId d.counter, type := q.type, parent := some par.id } q
      (idInsert m q.id (freshId d.counter))
      = .ok ⟨d.counter + 1, plainShapeFinal d.counter par q :: d.elements⟩ := by
    rw [hup]
    simp [plainShapeFinal]
  simp only [insertShape, hcr, hup2, h3, h4, insertChildElementsAux]

theorem insertLoopAux_append (ins : Diagram → Elem → IdMap → Res InsRes) (sk : Bool)
    (l1 l2 : List Elem) :
    ∀ (d : Diagram) (m : IdMap) (s : Bool),
    insertLoopAux ins sk (l1 ++ l2) d m s
      = match insertLoopAux ins sk l1 d m s with
        | .ok (s1, m1, d1) => insertLoopAux ins sk l2 d1 m1 s1
        | .err => .err
        | .fuel => .fuel := by
  induction l1 with
  | nil => intro d m s; simp [insertLoopAux]
  | cons a rest ih =>
    intro d m s
    by_cases hsk : (sk && isDeferredChild a) = true
    · simp only [List.cons_append, insertLoopAux, hsk, if_true]
      exact ih d m s
    · have hsk' : (sk && isDeferredChild a) = false :=
        Bool.not_eq_true _ ▸ eq_false_of_ne_true hsk
      cases h : ins d a m with
      | ok r => simp only [List.cons_append, insertLoopAux, hsk', Bool.false_eq_true,
          if_false, h]; exact ih r.diagram r.idMap (s && r.success)
      | err => simp [insertLoopAux, hsk', h]
      | fuel => simp [insertLoopAux, hsk', h]

theorem insertLoopAux_skipped (ins : Diagram → Elem → IdMap → Res InsRes) (l : List Elem)
    (h : ∀ q ∈ l, isDeferredChild q = true) :
    ∀ (d : Diagram) (m : IdMap) (s : Bool), insertLoopAux ins true l d m s = .ok (s, m, d) := by
  induction l with
  | nil => intro d m s; simp [insertLoopAux]
  | cons a rest ih =>
    intro d m s
    have := h a (List.mem_cons_self a rest)
    simp only [insertLoopAux, this, Bool.and_true, if_true]
    exact ih (fun q hq => h q (List.mem_cons_of_mem a hq)) d m s

theorem insertLoop_plains (fu : Nat) (par : DElem) (sk : Bool) (l : List Elem) :
    ∀ (d : Diagram) (m : IdMap) (s : Bool) (out : Bool × IdMap × Diagram),
    (∀ q ∈ l, plainLeaf q) →
    (∀ j, j < l.length → ∀ el ∈ d.elements, el.id ≠ freshId (d.counter + j)) →
    insertLoopAux (fun dc e mc => insertShape fu dc (some par) e mc false none) sk l d m s
      = .ok out →
    out = (s, (plainBindings d.counter l).reverse ++ m,
           ⟨d.counter + l.length, (plainShapes d.counter par l).reverse ++ d.elements⟩) := by
  induction l with
  | nil =>
    intro d m s out _ _ hok
    simp only [insertLoopAux] at hok
    cases hok
    simp [plainBindings, plainShapes]
  | cons q rest ih =>
    intro d m s out hpl hcol hok
    have hq := hpl q (List.mem_cons_self q rest)
    have hnd : isDeferredChild q = false := by
      obtain ⟨h1, h2, _, _⟩ := hq
      have hseq : (q.type == "bpmn:SequenceFlow") = false := by
        have h1' := h1
        simp only [isFlowLikeElement, Bool.or_eq_false_iff] at h1'
        exact h1'.1
      have hbd : (q.type == "bpmn:BoundaryEvent") = false := by simpa using h2
      simp [isDeferredChild, hseq, hbd]
    have hsk' : (sk && isDeferredChild q) = false := by simp [hnd]
    cases fu with
    | zero =>
      simp [insertLoopAux, hsk', insertShape] at hok
    | succ g =>
      have hcol0 : ∀ el ∈ d.elements, el.id ≠ freshId d.counter := by
        intro el hel
        simpa using hcol 0 (by simp) el hel
      have hleaf := insertShape_plainLeaf g d par q m hq hcol0
      simp only [insertLoopAux, hsk', Bool.false_eq_true, if_false, hleaf] at hok
      have hcol' : ∀ j, j < rest.length →
          ∀ el ∈ (plainShapeFinal d.counter par q :: d.elements),
          el.id ≠ freshId (d.counter + 1 + j) := by
        intro j hj el hel
        rcases List.mem_cons.mp hel with h | h
        · subst h
          intro hc
          have := freshId_injective (hc.symm)
          omega
        · have := hcol (j + 1) (by simpa using Nat.succ_lt_succ hj) el h
          intro hc
          exact this (by rw [hc]; congr 1; omega)
      have := ih ⟨d.counter + 1, plainShapeFinal d.counter par q :: d.elements⟩
        (idInsert m q.id (freshId d.counter)) (s && true) out
        (fun p hp => hpl p (List.mem_cons_of_mem q hp)) hcol' hok
      rw [this]
      simp [plainBindings, plainShapes, idInsert, Nat.add_assoc, Nat.add_comm 1 rest.length]

theorem plainBindings_keys (l : List Elem) :
    ∀ k, (plainBindings k l).map Prod.fst = l.map Elem.id := by
  induction l with
  | nil => intro k; rfl
  | cons a rest ih => intro k; simp [plainBindings, ih (k + 1)]

theorem plainBindings_shapes_mem (par : DElem) (l : List Elem) :
    ∀ (k : Nat) (pi : Elem), pi ∈ l →
    ∃ j, ∃ hj : j < l.length, l.get ⟨j, hj⟩ = pi
      ∧ (pi.id, freshId (k + j)) ∈ plainBindings k l
      ∧ plainShapeFinal (k + j) par pi ∈ plainShapes k par l := by
  induction l with
  | nil => intro k pi h; cases h
  | cons a rest ih =>
    intro k pi h
    rcases List.mem_cons.mp h with h | h
    · subst h
      exact ⟨0, by simp, by simp, by simp [plainBindings], by simp [plainShapes]⟩
    · obtain ⟨j, hj, hget, hb, hs⟩ := ih (k + 1) pi h
      refine ⟨j + 1, by simpa using Nat.succ_lt_succ hj, by simpa using hget, ?_, ?_⟩
      · have : k + (j + 1) = k + 1 + j := by omega
        rw [this]
        exact List.mem_cons_of_mem _ hb
      · have : k + (j + 1) = k + 1 + j := by omega
        rw [this]
        exact List.mem_cons_of_mem _ hs

theorem filter_false_nil {α : Type} (p : α → Bool) (l : List α)
    (h : ∀ a ∈ l, p a = false) : l.filter p = [] := by
  induction l with
  | nil => rfl
  | cons a rest ih =>
    have := h a (List.mem_cons_self a rest)
    simp [List.filter_cons, this]
    intro x hx
    simpa using h x (List.mem_cons_of_mem a hx)

theorem plainShapes_mem_shape (par : DElem) (l : List Elem) :
    ∀ k y, y ∈ plainShapes k par l →
    ∃ j, ∃ hj : j < l.length, y = plainShapeFinal (k + j) par (l.get ⟨j, hj⟩) := by
  induction l with
  | nil => intro k y h; cases h
  | cons a rest ih =>
    intro k y h
    rcases List.mem_cons.mp h with h | h
    · exact ⟨0, by simp, by simpa using h⟩
    · obtain ⟨j, hj, hy⟩ := ih (k + 1) y h
      refine ⟨j + 1, by simpa using Nat.succ_lt_succ hj, ?_⟩
      have : k + (j + 1) = k + 1 + j := by omega
      rw [this]
      simpa using hy

theorem idLookup_append (m1 m2 : IdMap) (x : String) :
    idLookup (m1 ++ m2) x
      = match idLookup m1 x with
        | some v => some v
        | none => idLookup m2 x := by
  induction m1 with
  | nil => simp [idLookup]
  | cons a rest ih =>
    by_cases h : (a.1 == x) = true
    · simp [idLookup, List.find?_cons, h]
    · have h' : (a.1 == x) = false := Bool.not_eq_true _ ▸ eq_false_of_ne_true h
      simp only [List.cons_append, idLookup, List.find?_cons, h'] at ih ⊢
      exact ih

theorem insertShape_container (fu : Nat) (d : Diagram) (par : DElem) (c : Elem) (m : IdMap)
    (hct : isFlowLikeElement c.type = false) (hcb : c.type ≠ "bpmn:BoundaryEvent")
    (hca : c.artifacts = none)
    (hcol : ∀ el ∈ d.elements, el.id ≠ freshId d.counter) :
    insertShape (fu + 1) d (some par) c m false none
      = match insertChildElementsAux
            (fun dc e mc => insertShape fu dc
              (some { id := freshId d.counter, type := c.type, parent := some par.id }) e mc
              false none)
            c ⟨d.counter + 1, plainShapeFinal d.counter par c :: d.elements⟩
            (idInsert m c.id (freshId d.counter)) with
        | .err => .err
        | .fuel => .fuel
        | .ok (s, m5, d5) =>
          .ok ⟨s, m5, { id := freshId d.counter, type := c.type, parent := some par.id }, d5⟩ := by
  have hcr := createElementStep_fresh d par c m none hct
  have hup := applyElementUpdates_nonboundary (d.counter + 1)
    { id := freshId d.counter, type := c.type, parent := some par.id } d.elements c
    (idInsert m c.id (freshId d.counter)) hcb (fun x hx => hcol x hx)
  have hup2 : applyElementUpdates
      ⟨d.counter + 1,
       { id := freshId d.counter, type := c.type, parent := some par.id } :: d.elements⟩
      { id := freshId d.counter, type := c.type, parent := some par.id } c
      (idInsert m c.id (freshId d.counter))
      = .ok ⟨d.counter + 1, plainShapeFinal d.counter par c :: d.elements⟩ := by
    rw [hup]
    simp [plainShapeFinal]
  simp only [insertShape, hcr, hup2, hca]

theorem plains_state_lookup (par2 : DElem) (ps : List Elem) (c0 : Nat) (pi : Elem)
    (tail : List DElem) (mtail : IdMap)
    (hnd : (ps.map Elem.id).Nodup) (hpi : pi ∈ ps)
    (hcolS : ∀ x ∈ tail, ∀ j, j < ps.length → x.id ≠ freshId (c0 + j)) :
    ∃ j, j < ps.length
    ∧ idLookup ((plainBindings c0 ps).reverse ++ mtail) pi.id = some (freshId (c0 + j))
    ∧ (List.find? (fun el => el.id == freshId (c0 + j))
         ((plainShapes c0 par2 ps).reverse ++ tail))
        = some (plainShapeFinal (c0 + j) par2 pi) := by
  obtain ⟨j, hj, hget, hb, hs⟩ := plainBindings_shapes_mem par2 ps c0 pi hpi
  refine ⟨j, hj, ?_, ?_⟩
  · have hkeys : ((plainBindings c0 ps).reverse.map Prod.fst).Nodup := by
      rw [List.map_reverse, plainBindings_keys]
      exact List.nodup_reverse.mpr hnd
    have hlk : idLookup ((plainBindings c0 ps).reverse) pi.id = some (freshId (c0 + j)) :=
      idLookup_of_mem_nodup _ _ _ (List.mem_reverse.mpr hb) hkeys
    rw [idLookup_append, hlk]
  · refine find?_eq_of_unique _ _ _ ?_ rfl ?_
    · exact List.mem_append_left _ (List.mem_reverse.mpr hs)
    · intro y hy hyid
      rcases List.mem_append.mp hy with hy | hy
      · obtain ⟨j2, hj2, hy2⟩ := plainShapes_mem_shape par2 ps c0 y (List.mem_reverse.mp hy)
        have hid2 : freshId (c0 + j2) = freshId (c0 + j) := by
          have h0 := hyid
          rw [hy2] at h0
          simpa [plainShapeFinal] using h0
        have : j2 = j := by
          have := freshId_injective hid2
          omega
        subst this
        rw [hy2, hget]
      · exact absurd hyid (hcolS y hy j hj)

theorem insertShape_edge (g : Nat) (d2 : Diagram) (par2 : DElem) (e : Elem) (m2 : IdMap)
    (het : e.type = "bpmn:SequenceFlow") (hef : e.flowElements = none) (hea : e.artifacts = none)
    (sid tid : String) (hsrc : e.sourceRef = some sid) (htgt : e.targetRef = some tid)
    (sEl tEl : DElem)
    (hs : registryGet d2 (idLookup m2 sid) = some sEl)
    (ht : registryGet d2 (idLookup m2 tid) = some tEl)
    (hcolc : ∀ x ∈ d2.elements, x.id ≠ freshId d2.counter) :
    insertShape (g + 1) d2 (some par2) e m2 false none
      = .ok ⟨true, idInsert m2 e.id (freshId d2.counter),
             { id := freshId d2.counter, type := e.type,
               source := some sEl.id, target := some tEl.id },
             ⟨d2.counter + 1,
              { id := freshId d2.counter, type := e.type, source := some sEl.id,
                target := some tEl.id, props := e.props } :: d2.elements⟩⟩ := by
  have hflow : isFlowLikeElement e.type = true := by simp [isFlowLikeElement, het]
  have hcr : createElementStep d2 (some par2) e m2 false none
      = .ok ({ id := freshId d2.counter, type := e.type,
               source := some sEl.id, target := some tEl.id },
             ⟨d2.counter + 1,
              { id := freshId d2.counter, type := e.type, source := some sEl.id,
                target := some tEl.id } :: d2.elements⟩) := by
    simp [createElementStep, hflow, hsrc, htgt, hs, ht, connect]
  have hnb : e.type ≠ "bpmn:BoundaryEvent" := by rw [het]; decide
  have hup := applyElementUpdates_nonboundary (d2.counter + 1)
    { id := freshId d2.counter, type := e.type,
      source := some sEl.id, target := some tEl.id } d2.elements e
    (idInsert m2 e.id (freshId d2.counter)) hnb (fun x hx => hcolc x hx)
  have hsp : (e.type == "bpmn:SubProcess" && e.isExpanded) = false := by
    rw [het]
    simp
  have hup2 : applyElementUpdates
      ⟨d2.counter + 1,
       { id := freshId d2.counter, type := e.type, source := some sEl.id,
         target := some tEl.id } :: d2.elements⟩
      { id := freshId d2.counter, type := e.type,
        source := some sEl.id, target := some tEl.id } e
      (idInsert m2 e.id (freshId d2.counter))
      = .ok ⟨d2.counter + 1,
             { id := freshId d2.counter, type := e.type, source := some sEl.id,
               target := some tEl.id, props := e.props } :: d2.elements⟩ := by
    rw [hup]
    simp [hsp]
  simp only [insertShape, hcr, hup2, hef, hea, insertChildElementsAux]

/-- C1: splicing a replacement container whose children are plain nodes
followed by an edge whose `sourceRef`/`targetRef` are template-local ids
of those plain nodes produces a diagram in which the inserted edge is
connected between the host-assigned fresh ids recorded in the identifier
map — the ids of the freshly inserted plain shapes — and never between
the template-local ids; the plain children are inserted in the first
pass, before the deferred boundary and edge buckets, so both endpoints
are in the identifier map when the connection is created. -/
theorem insertShape_edge_new_ids (fuel : Nat) (d : Diagram) (par : DElem) (c : Elem)
    (ps : List Elem) (e : Elem) (pi pj : Elem) (r : InsRes)
    (hct : isFlowLikeElement c.type = false)
    (hcb : c.type ≠ "bpmn:BoundaryEvent")
    (hcf : c.flowElements = some (ps ++ [e]))
    (hca : c.artifacts = none)
    (hps : ∀ q ∈ ps, plainLeaf q)
    (hnd : ((ps.map Elem.id) ++ [e.id]).Nodup)
    (het : e.type = "bpmn:SequenceFlow")
    (hef : e.flowElements = none) (hea : e.artifacts = none)
    (hpi : pi ∈ ps) (hpj : pj ∈ ps)
    (hsrc : e.sourceRef = some pi.id) (htgt : e.targetRef = some pj.id)
    (hfresh : ∀ k, k < d.counter + ps.length + 2 → ∀ q ∈ ps, freshId k ≠ q.id)
    (hcol : ∀ k, k < d.counter + ps.length + 2 → ∀ el ∈ d.elements, el.id ≠ freshId k)
    (hrun : insertShape fuel d (some par) c [] false none = .ok r) :
    ∃ s t, idLookup r.idMap pi.id = some s ∧ idLookup r.idMap pj.id = some t
      ∧ (∃ ks, s = freshId ks) ∧ (∃ kt, t = freshId kt)
      ∧ s ≠ pi.id ∧ t ≠ pj.id
      ∧ (∃ connEl ∈ r.diagram.elements, connEl.type = e.type
          ∧ connEl.source = some s ∧ connEl.target = some t)
      ∧ (∃ srcEl ∈ r.diagram.elements, srcEl.id = s ∧ srcEl.type = pi.type)
      ∧ (∃ tgtEl ∈ r.diagram.elements, tgtEl.id = t ∧ tgtEl.type = pj.type) := by
  have hndps : (ps.map Elem.id).Nodup := (List.nodup_append.mp hnd).1
  have heid : ∀ q ∈ ps, e.id ≠ q.id := by
    intro q hq heq
    have h1 := (List.nodup_append.mp hnd).2.2
    exact h1 (List.mem_map.mpr ⟨q, hq, rfl⟩) (by simp [heq.symm])
  cases fuel with
  | zero => simp [insertShape] at hrun
  | succ fu =>
    have hcol0 : ∀ el ∈ d.elements, el.id ≠ freshId d.counter := fun el hel =>
      hcol d.counter (by omega) el hel
    rw [insertShape_container fu d par c [] hct hcb hca hcol0] at hrun
    cases hch : insertChildElementsAux
        (fun dc e2 mc => insertShape fu dc
          (some { id := freshId d.counter, type := c.type, parent := some par.id }) e2 mc
          false none)
        c ⟨d.counter + 1, plainShapeFinal d.counter par c :: d.elements⟩
        (idInsert [] c.id (freshId d.counter)) with
    | err => rw [hch] at hrun; cases hrun
    | fuel => rw [hch] at hrun; cases hrun
    | ok out5 =>
      obtain ⟨s5, m5, d5⟩ := out5
      rw [hch] at hrun
      have hr : r = ⟨s5, m5,
          { id := freshId d.counter, type := c.type, parent := some par.id }, d5⟩ := by
        cases hrun
        rfl
      simp only [insertChildElementsAux, hcf] at hch
      rw [insertLoopAux_append] at hch
      cases h1 : insertLoopAux
          (fun dc e2 mc => insertShape fu dc
            (some { id := freshId d.counter, type := c.type, parent := some par.id }) e2 mc
            false none) true ps
          ⟨d.counter + 1, plainShapeFinal d.counter par c :: d.elements⟩
          (idInsert [] c.id (freshId d.counter)) true with
      | err => rw [h1] at hch; cases hch
      | fuel => rw [h1] at hch; cases hch
      | ok out1 =>
        have hcolC : ∀ j, j < ps.length →
            ∀ el ∈ (plainShapeFinal d.counter par c :: d.elements),
            el.id ≠ freshId (d.counter + 1 + j) := by
          intro j hj el hel
          rcases List.mem_cons.mp hel with h | h
          · subst h
            simp only [plainShapeFinal]
            intro hcontra
            have := freshId_injective hcontra
            omega
          · exact hcol (d.counter + 1 + j) (by omega) el h
        have hout1 := insertLoop_plains fu
          { id := freshId d.counter, type := c.type, parent := some par.id } true ps
          ⟨d.counter + 1, plainShapeFinal d.counter par c :: d.elements⟩
          (idInsert [] c.id (freshId d.counter)) true out1 hps hcolC h1
        subst hout1
        rw [h1] at hch
        simp only at hch
        have hdefE : ∀ q ∈ [e], isDeferredChild q = true := by
          intro q hq
          rw [List.mem_singleton.mp hq]
          simp [isDeferredChild, het]
        rw [insertLoopAux_skipped _ [e] hdefE] at hch
        simp only at hch
        have hfb : (ps ++ [e]).filter (fun q => q.type == "bpmn:BoundaryEvent") = [] := by
          refine filter_false_nil _ _ fun q hq => ?_
          rcases List.mem_append.mp hq with h | h
          · simpa using (hps q h).2.1
          · rw [List.mem_singleton.mp h, het]
            decide
        rw [hfb] at hch
        simp only [insertLoopAux] at hch
        have hfs : (ps ++ [e]).filter (fun q => q.type == "bpmn:SequenceFlow") = [e] := by
          rw [List.filter_append]
          have h0 : ps.filter (fun q => q.type == "bpmn:SequenceFlow") = [] := by
            refine filter_false_nil _ _ fun q hq => ?_
            have h1' := (hps q hq).1
            simp only [isFlowLikeElement, Bool.or_eq_false_iff] at h1'
            exact h1'.1
          rw [h0]
          simp [List.filter_cons, het]
        rw [hfs] at hch
        simp only [insertLoopAux, Bool.false_and, Bool.false_eq_true, if_false,
          ite_false] at hch
        cases fu with
        | zero => simp [insertShape] at hch
        | succ g =>
          have hcolS : ∀ x ∈ (plainShapeFinal d.counter par c :: d.elements),
              ∀ j, j < ps.length → x.id ≠ freshId (d.counter + 1 + j) := by
            intro x hx j hj
            exact hcolC j hj x hx
          obtain ⟨j, hjlt, hlkS, hfindS⟩ := plains_state_lookup
            { id := freshId d.counter, type := c.type, parent := some par.id }
            ps (d.counter + 1) pi (plainShapeFinal d.counter par c :: d.elements)
            (idInsert [] c.id (freshId d.counter)) hndps hpi hcolS
          obtain ⟨j2, hj2lt, hlkT, hfindT⟩ := plains_state_lookup
            { id := freshId d.counter, type := c.type, parent := some par.id }
            ps (d.counter + 1) pj (plainShapeFinal d.counter par c :: d.elements)
            (idInsert [] c.id (freshId d.counter)) hndps hpj hcolS
          have hsreg : registryGet
              ⟨d.counter + 1 + ps.length,
               (plainShapes (d.counter + 1)
                 { id := freshId d.counter, type := c.type, parent := some par.id }
                 ps).reverse ++ plainShapeFinal d.counter par c :: d.elements⟩
              (idLookup ((plainBindings (d.counter + 1) ps).reverse
                ++ idInsert [] c.id (freshId d.counter)) pi.id)
              = some (plainShapeFinal (d.counter + 1 + j)
                  { id := freshId d.counter, type := c.type, parent := some par.id } pi) := by
            rw [hlkS]
            simpa [registryGet] using hfindS
          have htreg : registryGet
              ⟨d.counter + 1 + ps.length,
               (plainShapes (d.counter + 1)
                 { id := freshId d.counter, type := c.type, parent := some par.id }
                 ps).reverse ++ plainShapeFinal d.counter par c :: d.elements⟩
              (idLookup ((plainBindings (d.counter + 1) ps).reverse
                ++ idInsert [] c.id (freshId d.counter)) pj.id)
              = some (plainShapeFinal (d.counter + 1 + j2)
                  { id := freshId d.counter, type := c.type, parent := some par.id } pj) := by
            rw [hlkT]
            simpa [registryGet] using hfindT
          have hcolc : ∀ x ∈ ((plainShapes (d.counter + 1)
                { id := freshId d.counter, type := c.type, parent := some par.id }
                ps).reverse ++ plainShapeFinal d.counter par c :: d.elements),
              x.id ≠ freshId (d.counter + 1 + ps.length) := by
            intro x hx
            rcases List.mem_append.mp hx with h | h
            · obtain ⟨j3, hj3, hx3⟩ := plainShapes_mem_shape _ _ _ _ (List.mem_reverse.mp h)
              rw [hx3]
              simp only [plainShapeFinal]
              intro hcontra
              have := freshId_injective hcontra
              omega
            · rcases List.mem_cons.mp h with h | h
              · rw [h]
                simp only [plainShapeFinal]
                intro hcontra
                have := freshId_injective hcontra
                omega
              · exact hcol (d.counter + 1 + ps.length) (by omega) x h
          rw [insertShape_edge g
            ⟨d.counter + 1 + ps.length,
             (plainShapes (d.counter + 1)
               { id := freshId d.counter, type := c.type, parent := some par.id }
               ps).reverse ++ plainShapeFinal d.counter par c :: d.elements⟩
            { id := freshId d.counter, type := c.type, parent := some par.id }
            e ((plainBindings (d.counter + 1) ps).reverse
                ++ idInsert [] c.id (freshId d.counter))
            het hef hea pi.id pj.id hsrc htgt _ _ hsreg htreg hcolc] at hch
          simp only [insertLoopAux] at hch
          simp only [Res.ok.injEq, Prod.mk.injEq] at hch
          obtain ⟨hA, hB, hC⟩ := hch
          refine ⟨freshId (d.counter + 1 + j), freshId (d.counter + 1 + j2), ?_, ?_,
            ⟨_, rfl⟩, ⟨_, rfl⟩, ?_, ?_, ?_, ?_, ?_⟩
          · rw [hr, ← hB]
            simp only [idInsert, idLookup_cons]
            have : (e.id == pi.id) = false := by simpa using heid pi hpi
            rw [this]
            simpa using hlkS
          · rw [hr, ← hB]
            simp only [idInsert, idLookup_cons]
            have : (e.id == pj.id) = false := by simpa using heid pj hpj
            rw [this]
            simpa using hlkT
          · exact (hfresh (d.counter + 1 + j) (by omega) pi hpi)
          · exact (hfresh (d.counter + 1 + j2) (by omega) pj hpj)
          · refine
              ⟨{ id := freshId (d.counter + 1 + ps.length), type := e.type,
                 source := some (plainShapeFinal (d.counter + 1 + j)
                   { id := freshId d.counter, type := c.type, parent := some par.id } pi).id,
                 target := some (plainShapeFinal (d.counter + 1 + j2)
                   { id := freshId d.counter, type := c.type, parent := some par.id } pj).id,
                 props := e.props }, ?_, ?_, ?_, ?_⟩
            · rw [hr, ← hC]
              exact List.mem_cons_self _ _
            · rfl
            · simp [plainShapeFinal]
            · simp [plainShapeFinal]
          · refine ⟨plainShapeFinal (d.counter + 1 + j)
                { id := freshId d.counter, type := c.type, parent := some par.id } pi,
              ?_, by simp [plainShapeFinal], by simp [plainShapeFinal]⟩
            rw [hr, ← hC]
            exact List.mem_cons_of_mem _ (List.mem_of_find?_eq_some hfindS)
          · refine ⟨plainShapeFinal (d.counter + 1 + j2)
                { id := freshId d.counter, type := c.type, parent := some par.id } pj,
              ?_, by simp [plainShapeFinal], by simp [plainShapeFinal]⟩
            rw [hr, ← hC]
            exact List.mem_cons_of_mem _ (List.mem_of_find?_eq_some hfindT)

theorem idLookup_none (m : IdMap) (x : String) (h : ∀ p ∈ m, p.1 ≠ x) :
    idLookup m x = none := by
  induction m with
  | nil => rfl
  | cons a rest ih =>
    have ha : (a.1 == x) = false := by simpa using h a (List.mem_cons_self a rest)
    simp only [idLookup, List.find?_cons, ha]
    exact ih fun p hp => h p (List.mem_cons_of_mem a hp)

/-- C2 (amended): when an edge child's `sourceRef` id is absent from the
identifier map (it names neither the container nor any plain sibling),
the `connect` host call receives an unresolved element and the splice
throws: `insertShape` propagates the error (or runs out of embedding
fuel) — it never returns, so no `success = false` result is produced and
the siblings after the failing edge are not processed. -/
theorem insertShape_unresolved_edge_throws (fuel : Nat) (d : Diagram) (par : DElem)
    (c : Elem) (ps : List Elem) (e : Elem) (x : String)
    (hct : isFlowLikeElement c.type = false)
    (hcb : c.type ≠ "bpmn:BoundaryEvent")
    (hcf : c.flowElements = some (ps ++ [e]))
    (hca : c.artifacts = none)
    (hps : ∀ q ∈ ps, plainLeaf q)
    (het : e.type = "bpmn:SequenceFlow")
    (hsrc : e.sourceRef = some x)
    (hx1 : ∀ q ∈ ps, q.id ≠ x) (hx2 : c.id ≠ x)
    (hcol : ∀ k, k < d.counter + ps.length + 2 → ∀ el ∈ d.elements, el.id ≠ freshId k) :
    insertShape fuel d (some par) c [] false none = .err
    ∨ insertShape fuel d (some par) c [] false none = .fuel := by
  cases fuel with
  | zero => right; rfl
  | succ fu =>
    have hcol0 : ∀ el ∈ d.elements, el.id ≠ freshId d.counter := fun el hel =>
      hcol d.counter (by omega) el hel
    rw [insertShape_container fu d par c [] hct hcb hca hcol0]
    simp only [insertChildElementsAux, hcf]
    rw [insertLoopAux_append]
    cases h1 : insertLoopAux
        (fun dc e2 mc => insertShape fu dc
          (some { id := freshId d.counter, type := c.type, parent := some par.id }) e2 mc
          false none) true ps
        ⟨d.counter + 1, plainShapeFinal d.counter par c :: d.elements⟩
        (idInsert [] c.id (freshId d.counter)) true with
    | err => left; rfl
    | fuel => right; rfl
    | ok out1 =>
      have hcolC : ∀ j, j < ps.length →
          ∀ el ∈ (plainShapeFinal d.counter par c :: d.elements),
          el.id ≠ freshId (d.counter + 1 + j) := by
        intro j hj el hel
        rcases List.mem_cons.mp hel with h | h
        · subst h
          simp only [plainShapeFinal]
          intro hcontra
          have := freshId_injective hcontra
          omega
        · exact hcol (d.counter + 1 + j) (by omega) el h
      have hout1 := insertLoop_plains fu
        { id := freshId d.counter, type := c.type, parent := some par.id } true ps
        ⟨d.counter + 1, plainShapeFinal d.counter par c :: d.elements⟩
        (idInsert [] c.id (freshId d.counter)) true out1 hps hcolC h1
      subst hout1
      simp only
      have hdefE : ∀ q ∈ [e], isDeferredChild q = true := by
        intro q hq
        rw [List.mem_singleton.mp hq]
        simp [isDeferredChild, het]
      rw [insertLoopAux_skipped _ [e] hdefE]
      simp only
      have hfb : (ps ++ [e]).filter (fun q => q.type == "bpmn:BoundaryEvent") = [] := by
        refine filter_false_nil _ _ fun q hq => ?_
        rcases List.mem_append.mp hq with h | h
        · simpa using (hps q h).2.1
        · rw [List.mem_singleton.mp h, het]
          decide
      rw [hfb]
      simp only [insertLoopAux]
      have hfs : (ps ++ [e]).filter (fun q => q.type == "bpmn:SequenceFlow") = [e] := by
        rw [List.filter_append]
        have h0 : ps.filter (fun q => q.type == "bpmn:SequenceFlow") = [] := by
          refine filter_false_nil _ _ fun q hq => ?_
          have h1' := (hps q hq).1
          simp only [isFlowLikeElement, Bool.or_eq_false_iff] at h1'
          exact h1'.1
        rw [h0]
        simp [List.filter_cons, het]
      rw [hfs]
      simp only [insertLoopAux, Bool.false_and, Bool.false_eq_true, if_false, ite_false]
      cases fu with
      | zero => right; rfl
      | succ g =>
        have hflow : isFlowLikeElement e.type = true := by simp [isFlowLikeElement, het]
        have hlk : idLookup ((plainBindings (d.counter + 1) ps).reverse
            ++ idInsert [] c.id (freshId d.counter)) x = none := by
          refine idLookup_none _ _ fun p hp => ?_
          rcases List.mem_append.mp hp with h | h
          · have h' := List.mem_reverse.mp h
            have hk : p.1 ∈ (plainBindings (d.counter + 1) ps).map Prod.fst :=
              List.mem_map.mpr ⟨p, h', rfl⟩
            rw [plainBindings_keys] at hk
            obtain ⟨q, hq, hqid⟩ := List.mem_map.mp hk
            rw [← hqid]
            exact hx1 q hq
          · rcases List.mem_cons.mp h with h | h
            · rw [h]
              exact hx2
            · cases h
        have hstep : createElementStep
            ⟨d.counter + 1 + ps.length,
             (plainShapes (d.counter + 1)
               { id := freshId d.counter, type := c.type, parent := some par.id }
               ps).reverse ++ plainShapeFinal d.counter par c :: d.elements⟩
            (some { id := freshId d.counter, type := c.type, parent := some par.id }) e
            ((plainBindings (d.counter + 1) ps).reverse
              ++ idInsert [] c.id (freshId d.counter)) false none = .err := by
          cases htr : e.targetRef with
          | none => simp [createElementStep, hflow, hsrc, htr]
          | some y => simp [createElementStep, hflow, hsrc, htr, hlk, registryGet, connect]
        left
        simp only [insertShape, hstep]

theorem idLookup_cons_isSome (a b : String) (m : IdMap) (k : String)
    (h : (idLookup m k).isSome) : (idLookup ((a, b) :: m) k).isSome := by
  rw [idLookup_cons]
  by_cases hab : (a == k) = true
  · simp [hab]
  · have : (a == k) = false := Bool.not_eq_true _ ▸ eq_false_of_ne_true hab
    simpa [this] using h

theorem idLookup_insert_self (m : IdMap) (a b : String) :
    (idLookup (idInsert m a b) a).isSome := by
  simp [idInsert, idLookup_cons]

theorem insertLoopAux_ok_spec (ins : Diagram → Elem → IdMap → Res InsRes)
    (hins : ∀ dc e mc rr, ins dc e mc = .ok rr → rr.success = true
      ∧ ∀ k, (idLookup mc k).isSome → (idLookup rr.idMap k).isSome)
    (l : List Elem) :
    ∀ (sk : Bool) (d : Diagram) (m : IdMap) (s : Bool) (out : Bool × IdMap × Diagram),
    insertLoopAux ins sk l d m s = .ok out →
    out.1 = s ∧ ∀ k, (idLookup m k).isSome → (idLookup out.2.1 k).isSome := by
  induction l with
  | nil =>
    intro sk d m s out h
    simp only [insertLoopAux] at h
    cases h
    exact ⟨rfl, fun k hk => hk⟩
  | cons a rest ih =>
    intro sk d m s out h
    by_cases hsk : (sk && isDeferredChild a) = true
    · simp only [insertLoopAux, hsk, if_true] at h
      exact ih sk d m s out h
    · have hsk' : (sk && isDeferredChild a) = false :=
        Bool.not_eq_true _ ▸ eq_false_of_ne_true hsk
      simp only [insertLoopAux, hsk', Bool.false_eq_true, if_false, ite_false] at h
      cases hi : ins d a m with
      | err => rw [hi] at h; cases h
      | fuel => rw [hi] at h; cases h
      | ok rr =>
        rw [hi] at h
        obtain ⟨hr1, hr2⟩ := hins d a m rr hi
        obtain ⟨ho1, ho2⟩ := ih sk rr.diagram rr.idMap (s && rr.success) out h
        constructor
        · rw [ho1, hr1, Bool.and_true]
        · exact fun k hk => ho2 k (hr2 k hk)

theorem insertChildElementsAux_ok_spec (ins : Diagram → Elem → IdMap → Res InsRes)
    (hins : ∀ dc e mc rr, ins dc e mc = .ok rr → rr.success = true
      ∧ ∀ k, (idLookup mc k).isSome → (idLookup rr.idMap k).isSome)
    (ne : Elem) (d : Diagram) (m : IdMap) (out : Bool × IdMap × Diagram)
    (h : insertChildElementsAux ins ne d m = .ok out) :
    out.1 = true ∧ ∀ k, (idLookup m k).isSome → (idLookup out.2.1 k).isSome := by
  unfold insertChildElementsAux at h
  cases hfe : ne.flowElements with
  | none =>
    rw [hfe] at h
    cases h
    exact ⟨rfl, fun k hk => hk⟩
  | some fes =>
    rw [hfe] at h
    simp only at h
    cases h1 : insertLoopAux ins true fes d m true with
    | err => rw [h1] at h; cases h
    | fuel => rw [h1] at h; cases h
    | ok o1 =>
      obtain ⟨s1, m1, d1⟩ := o1
      rw [h1] at h
      simp only at h
      obtain ⟨ha1, ha2⟩ := insertLoopAux_ok_spec ins hins fes true d m true _ h1
      cases h2 : insertLoopAux ins false
          (fes.filter fun e => e.type == "bpmn:BoundaryEvent") d1 m1 s1 with
      | err => rw [h2] at h; cases h
      | fuel => rw [h2] at h; cases h
      | ok o2 =>
        obtain ⟨s2, m2, d2⟩ := o2
        rw [h2] at h
        simp only at h
        obtain ⟨hb1, hb2⟩ := insertLoopAux_ok_spec ins hins _ false d1 m1 s1 _ h2
        obtain ⟨hc1, hc2⟩ := insertLoopAux_ok_spec ins hins _ false d2 m2 s2 _ h
        refine ⟨?_, fun k hk => hc2 k (hb2 k (ha2 k hk))⟩
        simp only at ha1 hb1 hc1
        rw [hc1, hb1, ha1]

/-- C3: whenever `insertShape` returns (rather than throwing), the
returned success flag is the conjunction of this node's own insertion
outcome and the outcomes of every recursively inserted child and
artifact — all of which are necessarily `true` on a returning run, since
any failing sub-insertion propagates as a thrown error instead of a
`false` flag — and the identifier map accumulated over this node and all
sub-insertions is propagated upward: every binding visible before the
call is still resolvable in the returned map, and the node's own
binding is present in it. -/
theorem insertShape_success_and_idMap :
    ∀ (fuel : Nat) (d : Diagram) (parent : Option DElem) (ne : Elem) (m : IdMap)
      (replace : Bool) (old : Option String) (r : InsRes),
    insertShape fuel d parent ne m replace old = .ok r →
    r.success = true
    ∧ (∀ k, (idLookup m k).isSome → (idLookup r.idMap k).isSome)
    ∧ (idLookup r.idMap ne.id).isSome := by
  intro fuel
  induction fuel with
  | zero =>
    intro d parent ne m replace old r h
    simp [insertShape] at h
  | succ fu ih =>
    intro d parent ne m replace old r h
    have hins : ∀ (par2 : DElem) (dc : Diagram) (e : Elem) (mc : IdMap) (rr : InsRes),
        insertShape fu dc (some par2) e mc false none = .ok rr →
        rr.success = true
        ∧ ∀ k, (idLookup mc k).isSome → (idLookup rr.idMap k).isSome := by
      intro par2 dc e mc rr hh
      obtain ⟨x1, x2, _⟩ := ih dc (some par2) e mc false none rr hh
      exact ⟨x1, x2⟩
    cases hc : createElementStep d parent ne m replace old with
    | err => simp only [insertShape, hc] at h; cases h
    | fuel => simp only [insertShape, hc] at h; cases h
    | ok pair =>
      obtain ⟨el, d1⟩ := pair
      simp only [insertShape, hc] at h
      cases hu : applyElementUpdates d1 el ne (idInsert m ne.id el.id) with
      | err => rw [hu] at h; cases h
      | fuel => rw [hu] at h; cases h
      | ok d4 =>
        rw [hu] at h
        simp only at h
        cases hch : insertChildElementsAux
            (fun dc e mc => insertShape fu dc (some el) e mc false none) ne d4
            (idInsert m ne.id el.id) with
        | err => rw [hch] at h; cases h
        | fuel => rw [hch] at h; cases h
        | ok out =>
          obtain ⟨s5, m5, d5⟩ := out
          rw [hch] at h
          simp only at h
          obtain ⟨hch1, hch2⟩ := insertChildElementsAux_ok_spec _
            (fun dc e mc rr hh => hins el dc e mc rr hh) ne d4 (idInsert m ne.id el.id) _ hch
          cases hart : ne.artifacts with
          | none =>
            rw [hart] at h
            simp only at h
            cases h
            refine ⟨hch1, ?_, ?_⟩
            · exact fun k hk => hch2 k (idLookup_cons_isSome _ _ _ _ hk)
            · exact hch2 ne.id (idLookup_insert_self m ne.id el.id)
          | some arts =>
            rw [hart] at h
            simp only at h
            cases hl : insertLoopAux
                (fun dc e mc => insertShape fu dc (some el) e mc false none)
                false arts d5 m5 s5 with
            | err => rw [hl] at h; cases h
            | fuel => rw [hl] at h; cases h
            | ok o6 =>
              obtain ⟨s6, m6, d6⟩ := o6
              rw [hl] at h
              simp only at h
              cases h
              obtain ⟨hl1, hl2⟩ := insertLoopAux_ok_spec _
                (fun dc e mc rr hh => hins el dc e mc rr hh) arts false d5 m5 s5 _ hl
              simp only at hl1 hl2
              refine ⟨by rw [hl1]; exact hch1, ?_, ?_⟩
              · exact fun k hk => hl2 k (hch2 k (idLookup_cons_isSome _ _ _ _ hk))
              · exact hl2 ne.id (hch2 ne.id (idLookup_insert_self m ne.id el.id))

/-- C5: the wildcard detector value matches every candidate value,
defined or undefined, for both values of the required flag; in
particular it succeeds when the attribute is required and the candidate
value is undefined. -/
theorem matchesProperty_wildcard (taskProperty : Option String) (required : Bool) :
    matchesProperty (some "*") taskProperty required = true := rfl

theorem matchAlternativeGo_all_none (l : List (Option String × Option String))
    (h : ∀ p ∈ l, p.2 = none) :
    ∀ acc, matchAlternativeGo l acc = matchAlternativeGo [] acc := by
  induction l with
  | nil => intro acc; rfl
  | cons a rest ih =>
    intro acc
    obtain ⟨ad, at2⟩ := a
    have := h (ad, at2) (List.mem_cons_self _ _)
    simp only at this
    subst this
    simp only [matchAlternativeGo]
    exact ih (fun p hp => h p (List.mem_cons_of_mem _ hp)) acc

theorem matchAlternativeGo_false_of_two (l : List (Option String × Option String)) :
    ∀ acc, 2 ≤ (l.countP fun p => p.2.isSome) + (if acc.isSome then 1 else 0) →
    matchAlternativeGo l acc = false := by
  induction l with
  | nil =>
    intro acc h
    cases acc <;> simp [List.countP_nil] at h
  | cons a rest ih =>
    intro acc h
    obtain ⟨ad, at2⟩ := a
    cases at2 with
    | none =>
      simp only [matchAlternativeGo]
      refine ih acc ?_
      have : ((ad, (none : Option String)) :: rest).countP (fun p => p.2.isSome)
          = rest.countP fun p => p.2.isSome := by
        simp [List.countP_cons]
      omega
    | some tv =>
      cases acc with
      | some acc0 => simp [matchAlternativeGo]
      | none =>
        simp only [matchAlternativeGo]
        refine ih (some (ad, some tv)) ?_
        have hc : ((ad, some tv) :: rest).countP (fun p => p.2.isSome)
            = (rest.countP fun p => p.2.isSome) + 1 := by
          simp [List.countP_cons]
        rw [hc] at h
        have h2 : 2 ≤ (rest.countP fun p => p.2.isSome) + 1 := by
          simpa using h
        exact h2

theorem matchAlternativeGo_exact (as bs : List (Option String × Option String))
    (dv : Option String) (v : String)
    (ha : ∀ p ∈ as, p.2 = none) (hb : ∀ p ∈ bs, p.2 = none) :
    matchAlternativeGo (as ++ (dv, some v) :: bs) none
      = matchesProperty dv (some v) true := by
  induction as with
  | nil =>
    simp only [List.nil_append, matchAlternativeGo]
    rw [matchAlternativeGo_all_none bs hb]
    rfl
  | cons a rest ih =>
    obtain ⟨ad, at2⟩ := a
    have := ha (ad, at2) (List.mem_cons_self _ _)
    simp only at this
    subst this
    simp only [List.cons_append, matchAlternativeGo]
    exact ih fun p hp => ha p (List.mem_cons_of_mem _ hp)

/-- C4: `matchAlternativeProperties` fails on sequences of different
lengths; with equal lengths it fails when zero or at least two candidate
positions are defined, regardless of the detector values; and when
exactly one candidate position is defined the result is exactly
`matchesProperty` of the detector value and candidate value at that
position with `required = true`. -/
theorem matchAlternativeProperties_spec (dps tps : List (Option String)) :
    (dps.length ≠ tps.length → matchAlternativeProperties dps tps = false)
    ∧ ((tps.countP fun t => t.isSome) = 0 → matchAlternativeProperties dps tps = false)
    ∧ (2 ≤ (tps.countP fun t => t.isSome) → matchAlternativeProperties dps tps = false)
    ∧ (∀ (cs ds as bs : List (Option String)) (dv : Option String) (v : String),
        dps = cs ++ dv :: ds → tps = as ++ some v :: bs →
        cs.length = as.length → ds.length = bs.length →
        (∀ x ∈ as, x = none) → (∀ x ∈ bs, x = none) →
        matchAlternativeProperties dps tps = matchesProperty dv (some v) true) := by
  refine ⟨?_, ?_, ?_, ?_⟩
  · intro h
    simp [matchAlternativeProperties, h]
  · intro h
    by_cases hl : dps.length = tps.length
    · simp only [matchAlternativeProperties, hl, ne_eq, not_true_eq_false, if_false,
        ite_false]
      have hall : ∀ p ∈ dps.zip tps, p.2 = none := by
        intro p hp
        have hmem := (List.of_mem_zip hp).2
        have := List.countP_eq_zero.mp h _ hmem
        simpa [Option.not_isSome_iff_eq_none] using this
      rw [matchAlternativeGo_all_none _ hall]
      rfl
    · simp [matchAlternativeProperties, hl]
  · intro h
    by_cases hl : dps.length = tps.length
    · simp only [matchAlternativeProperties, hl, ne_eq, not_true_eq_false, if_false,
        ite_false]
      refine matchAlternativeGo_false_of_two _ none ?_
      have hz : (dps.zip tps).map Prod.snd = tps :=
        List.map_snd_zip dps tps (le_of_eq hl.symm)
      have hcount : ((dps.zip tps).countP fun p => p.2.isSome)
          = tps.countP fun t => t.isSome := by
        conv_rhs => rw [← hz]
        rw [List.countP_map]
        rfl
      simp only [Option.isSome_none, if_false, ite_false]
      omega
    · simp [matchAlternativeProperties, hl]
  · intro cs ds as bs dv v hdps htps hlen1 hlen2 hnas hnbs
    subst hdps
    subst htps
    have hl : (cs ++ dv :: ds).length = (as ++ some v :: bs).length := by
      simp [hlen1, hlen2]
    simp only [matchAlternativeProperties, hl, ne_eq, not_true_eq_false, if_false,
      ite_false]
    rw [List.zip_append hlen1]
    simp only [List.zip_cons_cons]
    rw [matchAlternativeGo_exact]
    · intro p hp
      have := (List.of_mem_zip hp).2
      exact hnas p.2 this
    · intro p hp
      have := (List.of_mem_zip hp).2
      exact hnbs p.2 this

/-- C9: whenever the required attributes of an element are available, the
exported `isReplaceable` returns `true` even when no QRM in the stored
collection matches the element — the no-match fall-through of the source
returns `true` rather than `false`. -/
theorem isReplaceable_true_of_attrs (requiredAttributesAvailable : Elem → Bool)
    (qrms : List QRM) (element : Elem)
    (h : requiredAttributesAvailable element = true)
    (hnone : ∀ qrm ∈ qrms, matchesQRM qrm element = false) :
    isReplaceable requiredAttributesAvailable qrms element = true := by
  simp only [isReplaceable, h, Bool.not_true, Bool.false_eq_true, if_false, ite_false]
  split <;> rfl

/-- C10 (counterexample): the detector value consisting of the list
entries `a` and `*` matches the candidate `a`, whose trimmed value is not
the literal `*`; and the detector value of an asterisk surrounded by
whitespace matches an undefined candidate of an optional attribute,
which has no trimmed value at all. -/
theorem matchesProperty_star_entry_counterexample :
    matchesProperty (some "a,*") (some "a") true = true
    ∧ (jsTrim "a" == "*") = false
    ∧ matchesProperty (some " * ") none false = true := by
  decide

/-- C10 (amended): a comma-separated detector value with `*` as one entry
matches exactly the defined candidates whose trimmed value equals one of
the trimmed list entries (the `*` entry acting as the literal `*`, not as
match-anything) together with the undefined candidate when the attribute
is optional; a detector value of `*` surrounded by whitespace matches
exactly the defined candidates trimming to `*` together with the
undefined candidate when optional; neither detector value matches every
candidate. -/
theorem matchesProperty_star_entry_literal (tv : String) (required : Bool) :
    matchesProperty (some "a,*") (some tv) required
      = (("a" == jsTrim tv) || ("*" == jsTrim tv))
    ∧ matchesProperty (some "a,*") none required = !required
    ∧ matchesProperty (some " * ") (some tv) required = ("*" == jsTrim tv)
    ∧ matchesProperty (some " * ") none required = !required
    ∧ matchesProperty (some "a,*") (some "b") true = false
    ∧ matchesProperty (some " * ") (some "b") true = false := by
  have h1 : jsTrim "a" = "a" := by decide
  have h2 : jsTrim "*" = "*" := by decide
  have h3 : jsTrim " * " = "*" := by decide
  refine ⟨?_, rfl, ?_, rfl, by decide, by decide⟩
  · simp [matchesProperty, jsIncludes, jsSplit, jsSplitAux, h1, h2]
  · simp [matchesProperty, jsIncludes, jsSplit, jsSplitAux, h3]

/-- C6: the resolver `getMatchingQRM` scans the stored QRMs in collection
order and returns the first one whose detector matches the task; it
returns none exactly when no stored QRM matches.  In particular, when an
earlier and a later QRM both could apply, the earlier matching one is
returned. -/
theorem getMatchingQRM_first (qrms : List QRM) (task : Elem) :
    ((∀ qrm ∈ qrms, matchesQRM qrm task = false) → getMatchingQRM qrms task = none)
    ∧ (∀ (l1 : List QRM) (qrm : QRM) (l2 : List QRM),
        qrms = l1 ++ qrm :: l2 → (∀ p ∈ l1, matchesQRM p task = false) →
        matchesQRM qrm task = true → getMatchingQRM qrms task = some qrm) := by
  constructor
  · intro h
    apply List.find?_eq_none.mpr
    intro x hx
    simp [h x hx]
  · intro l1 qrm l2 hq hfail hmatch
    subst hq
    induction l1 with
    | nil =>
      simp only [getMatchingQRM, List.nil_append, List.find?_cons, hmatch]
    | cons a rest ih =>
      have ha := hfail a (List.mem_cons_self _ _)
      simp only [getMatchingQRM, List.cons_append, List.find?_cons, ha] at ih ⊢
      exact ih fun p hp => hfail p (List.mem_cons_of_mem a hp)

theorem resolveAll_error (qrms : List QRM) (l1 : List (Elem × Option DElem))
    (t : Elem) (p : Option DElem) (l2 : List (Elem × Option DElem))
    (hres : ∀ x ∈ l1, (getMatchingQRM qrms x.1).isSome)
    (hfail : getMatchingQRM qrms t = none) :
    resolveAll qrms (l1 ++ (t, p) :: l2) = .error t.id := by
  induction l1 with
  | nil => simp [resolveAll, hfail]
  | cons a rest ih =>
    obtain ⟨a1, a2⟩ := a
    have ha := hres (a1, a2) (List.mem_cons_self _ _)
    obtain ⟨q, hq⟩ := Option.isSome_iff_exists.mp ha
    simp only [List.cons_append, resolveAll, hq]
    have hih := ih fun x hx => hres x (List.mem_cons_of_mem _ hx)
    rw [show rest.append ((t, p) :: l2) = rest ++ ((t, p) :: l2) from rfl, hih]

/-- C7: when discovery finds a task with no matching QRM (all tasks
before it in discovery order being resolvable), the orchestrator aborts
during the resolving phase reporting that task's id, performs zero
splices, and leaves the target diagram unmodified; the splicing loop is
entered only when every discovered task has resolved. -/
theorem startReplacementProcess_aborts_on_unresolved (fuel : Nat) (d : Diagram)
    (root : Elem) (qrms : List QRM) (l1 l2 : List (Elem × Option DElem)) (t : Elem)
    (p : Option DElem)
    (hdisc : getQuantMETasks fuel (fun i => registryGet d (some i)) root
      = l1 ++ (t, p) :: l2)
    (hres : ∀ x ∈ l1, (getMatchingQRM qrms x.1).isSome)
    (hfail : getMatchingQRM qrms t = none) :
    startReplacementProcess fuel d (some root) qrms = .ok (.abortedResolving t.id, d) := by
  have hne : (l1 ++ (t, p) :: l2).isEmpty = false := by
    cases l1 <;> rfl
  simp only [startReplacementProcess, hdisc, hne, Bool.false_eq_true, if_false, ite_false,
    resolveAll_error qrms l1 t p l2 hres hfail]

/-- C8: task discovery is sound — every collected pair consists of a
`quantme:`-typed node and the registry element of the container that
directly holds it, the container being the process itself or a nested
sub process — and complete in depth: a `quantme:`-typed task nested two
sub-process levels below the root is collected and is paired with the
innermost container that directly holds it, not an outer one. -/
theorem getQuantMETasks_spec (fuel : Nat) (reg : String → Option DElem) (process : Elem) :
    (∀ t p, (t, p) ∈ getQuantMETasks fuel reg process →
      jsStartsWith t.type "quantme:" = true
      ∧ ∃ c ∈ containersOf fuel process, t ∈ c.flowElements.getD [] ∧ p = reg c.id)
    ∧ (∀ s1 s2 t, s1 ∈ process.flowElements.getD [] → s1.type = "bpmn:SubProcess" →
        s2 ∈ s1.flowElements.getD [] → s2.type = "bpmn:SubProcess" →
        t ∈ s2.flowElements.getD [] → jsStartsWith t.type "quantme:" = true →
        (t, reg s2.id) ∈ getQuantMETasks (fuel + 3) reg process) := by
  constructor
  · induction fuel generalizing process with
    | zero =>
      intro t p h
      simp [getQuantMETasks] at h
    | succ fu ih =>
      intro t p h
      simp only [getQuantMETasks] at h
      rw [List.mem_flatMap] at h
      obtain ⟨fe, hfe, hmem⟩ := h
      rcases List.mem_append.mp hmem with hm | hm
      · by_cases hq : jsStartsWith fe.type "quantme:" = true
        · rw [if_pos hq] at hm
          have := List.mem_singleton.mp hm
          obtain ⟨ht, hp⟩ := Prod.mk.injEq _ _ _ _ ▸ this
          subst ht
          refine ⟨hq, process, ?_, hfe, by rw [hp]⟩
          simp [containersOf]
        · rw [if_neg hq] at hm
          cases hm
      · by_cases hsp : (fe.type == "bpmn:SubProcess") = true
        · rw [if_pos hsp] at hm
          obtain ⟨hq, c, hc, hmemc, hp⟩ := ih fe t p hm
          refine ⟨hq, c, ?_, hmemc, hp⟩
          simp only [containersOf]
          refine List.mem_cons_of_mem _ (List.mem_flatMap.mpr ⟨fe, hfe, ?_⟩)
          rw [if_pos hsp]
          exact hc
        · rw [if_neg hsp] at hm
          cases hm
  · intro s1 s2 t h1 h1t h2 h2t h3 h3q
    show (t, reg s2.id) ∈ getQuantMETasks (fuel + 2 + 1) reg process
    simp only [getQuantMETasks]
    refine List.mem_flatMap.mpr ⟨s1, h1, List.mem_append_right _ ?_⟩
    rw [if_pos (by simp [h1t])]
    show (t, reg s2.id) ∈ getQuantMETasks (fuel + 1 + 1) reg s1
    simp only [getQuantMETasks]
    refine List.mem_flatMap.mpr ⟨s2, h2, List.mem_append_right _ ?_⟩
    rw [if_pos (by simp [h2t])]
    show (t, reg s2.id) ∈ getQuantMETasks (fuel + 1) reg s2
    simp only [getQuantMETasks]
    refine List.mem_flatMap.mpr ⟨t, h3, List.mem_append_left _ ?_⟩
    rw [if_pos h3q]
    simp

/-- Extract the result record of a completed `insertShape` run (a dummy
record is returned for a thrown or fuel-exhausted run). -/
def resValue : Res InsRes → InsRes
  | .ok r => r
  | _ => ⟨false, [], { id := "", type := "" }, ⟨0, []⟩⟩

/-- Concrete fixture: a plain task of a replacement fragment. -/
def wTask1 : Elem := .mk "bpmn:Task" "t1" none none none false [("a", "x")] none none

/-- Concrete fixture: a second plain task of a replacement fragment. -/
def wTask2 : Elem := .mk "bpmn:Task" "t2" none none none false [] none none

/-- Concrete fixture: a sequence flow referencing the two plain tasks by
their template-local ids. -/
def wEdge : Elem :=
  .mk "bpmn:SequenceFlow" "f1" (some "t1") (some "t2") none false [] none none

/-- Concrete fixture: a sequence flow whose `sourceRef` id is absent
from the fragment. -/
def wEdgeBad : Elem :=
  .mk "bpmn:SequenceFlow" "f2" (some "missing") (some "t1") none false [] none none

/-- Concrete fixture: an expanded sub process containing two plain tasks
and a connecting sequence flow. -/
def wContainer : Elem :=
  .mk "bpmn:SubProcess" "c1" none none none true [] (some [wTask1, wTask2, wEdge]) none

/-- Concrete fixture: a sub process containing one plain task and a
sequence flow with an unresolvable endpoint. -/
def wContainerBad : Elem :=
  .mk "bpmn:SubProcess" "c2" none none none false [] (some [wTask1, wEdgeBad]) none

/-- Concrete fixture: the diagram parent element. -/
def wParent : DElem := { id := "proc1", type := "bpmn:Process" }

/-- Concrete fixture: an empty target diagram. -/
def wDiagram : Diagram := ⟨0, []⟩

/-- C2 (counterexample): splicing a container holding a plain task and an
edge whose `sourceRef` names a missing id throws — the call produces an
error instead of returning a result with `success = false`, so no
sibling processing after the failing edge takes place. -/
theorem insertShape_unresolved_edge_counterexample :
    insertShape 10 wDiagram (some wParent) wContainerBad [] false none = .err := rfl

/-- Witness for the amended C2 theorem at the concrete fixture. -/
theorem insertShape_unresolved_edge_throws_witness :
    insertShape 20 wDiagram (some wParent) wContainerBad [] false none = .err
    ∨ insertShape 20 wDiagram (some wParent) wContainerBad [] false none = .fuel :=
  insertShape_unresolved_edge_throws 20 wDiagram wParent wContainerBad [wTask1] wEdgeBad
    "missing" (by decide) (by decide) rfl rfl
    (by
      intro q hq
      rw [List.mem_singleton.mp hq]
      exact ⟨rfl, by decide, rfl, rfl⟩)
    rfl rfl (by decide) (by decide) (by decide)

/-- Witness for the C1 theorem at the concrete fixture. -/
theorem insertShape_edge_new_ids_witness :
    ∃ s t,
      idLookup (resValue (insertShape 10 wDiagram (some wParent) wContainer
        [] false none)).idMap wTask1.id = some s
      ∧ idLookup (resValue (insertShape 10 wDiagram (some wParent) wContainer
          [] false none)).idMap wTask2.id = some t
      ∧ (∃ ks, s = freshId ks) ∧ (∃ kt, t = freshId kt)
      ∧ s ≠ wTask1.id ∧ t ≠ wTask2.id
      ∧ (∃ connEl ∈ (resValue (insertShape 10 wDiagram (some wParent) wContainer
          [] false none)).diagram.elements, connEl.type = wEdge.type
          ∧ connEl.source = some s ∧ connEl.target = some t)
      ∧ (∃ srcEl ∈ (resValue (insertShape 10 wDiagram (some wParent) wContainer
          [] false none)).diagram.elements, srcEl.id = s ∧ srcEl.type = wTask1.type)
      ∧ (∃ tgtEl ∈ (resValue (insertShape 10 wDiagram (some wParent) wContainer
          [] false none)).diagram.elements, tgtEl.id = t ∧ tgtEl.type = wTask2.type) :=
  insertShape_edge_new_ids 10 wDiagram wParent wContainer [wTask1, wTask2] wEdge
    wTask1 wTask2
    (resValue (insertShape 10 wDiagram (some wParent) wContainer [] false none))
    (by decide) (by decide) rfl rfl
    (by
      intro q hq
      rcases List.mem_cons.mp hq with h | h
      · rw [h]
        exact ⟨rfl, by decide, rfl, rfl⟩
      · rw [List.mem_singleton.mp h]
        exact ⟨rfl, by decide, rfl, rfl⟩)
    (by decide) rfl rfl rfl
    (List.mem_cons_self _ _) (List.mem_cons_of_mem _ (List.mem_cons_self _ _))
    rfl rfl (by decide) (by decide) rfl

/-- Witness for the C3 theorem at the concrete fixture. -/
theorem insertShape_success_and_idMap_witness :
    (resValue (insertShape 10 wDiagram (some wParent) wContainer [] false none)).success
      = true
    ∧ (∀ k, (idLookup ([] : IdMap) k).isSome →
        (idLookup (resValue (insertShape 10 wDiagram (some wParent) wContainer
          [] false none)).idMap k).isSome)
    ∧ (idLookup (resValue (insertShape 10 wDiagram (some wParent) wContainer
        [] false none)).idMap wContainer.id).isSome :=
  insertShape_success_and_idMap 10 wDiagram (some wParent) wContainer [] false none
    (resValue (insertShape 10 wDiagram (some wParent) wContainer [] false none)) rfl

/-- Witness for the C4 theorem: the second alternative slot is the one
defined, so the detector value at that slot is compared with
`required = true`. -/
theorem matchAlternativeProperties_spec_witness :
    matchAlternativeProperties [some "a", some "b"] [none, some "b"]
      = matchesProperty (some "b") (some "b") true :=
  (matchAlternativeProperties_spec [some "a", some "b"] [none, some "b"]).2.2.2
    [some "a"] [] [none] [] (some "b") "b" rfl rfl rfl rfl (by simp) (by simp)

/-- Concrete fixture: detector task whose `algorithm` lists two accepted
values and whose `provider` is the wildcard. -/
def wDetTask1 : Elem :=
  .mk "quantme:QuantumComputationTask" "d1" none none none false
    [("algorithm", "x,y"), ("provider", "*")] none none

/-- Concrete fixture: detector process for the first QRM. -/
def wDet1 : Elem :=
  .mk "bpmn:Process" "dp1" none none none false [] (some [wDetTask1]) none

/-- Concrete fixture: the first QRM. -/
def wQRM1 : QRM := ⟨wDet1, none⟩

/-- Concrete fixture: detector task of the second QRM, same kind but a
non-matching `algorithm` value. -/
def wDetTask2 : Elem :=
  .mk "quantme:QuantumComputationTask" "d2" none none none false
    [("algorithm", "z"), ("provider", "*")] none none

/-- Concrete fixture: detector process for the second QRM. -/
def wDet2 : Elem :=
  .mk "bpmn:Process" "dp2" none none none false [] (some [wDetTask2]) none

/-- Concrete fixture: the second QRM. -/
def wQRM2 : QRM := ⟨wDet2, none⟩

/-- Concrete fixture: a QuantME task with `algorithm = x`, matched by the
first QRM's detector but not the second's. -/
def wQTask : Elem :=
  .mk "quantme:QuantumComputationTask" "T1" none none none false
    [("algorithm", "x")] none none

/-- Concrete fixture: a QuantME task no stored QRM matches. -/
def wQTaskBad : Elem :=
  .mk "quantme:DataPreparationTask" "T2" none none none false [] none none

/-- Concrete fixture: a root process holding a resolvable task followed
by an unresolvable one. -/
def wRoot : Elem :=
  .mk "bpmn:Process" "root1" none none none false [] (some [wQTask, wQTaskBad]) none

/-- Concrete fixture: an inner sub process holding a QuantME task. -/
def wInner : Elem :=
  .mk "bpmn:SubProcess" "inner1" none none none false [] (some [wQTask]) none

/-- Concrete fixture: an outer sub process holding the inner one. -/
def wOuter : Elem :=
  .mk "bpmn:SubProcess" "outer1" none none none false [] (some [wInner]) none

/-- Concrete fixture: a root process with a task nested two container
levels deep. -/
def wRootNested : Elem :=
  .mk "bpmn:Process" "root2" none none none false [] (some [wOuter]) none

/-- Witness for the C6 theorem: with both QRMs of matching kind but only
the earlier one's attribute values matching, the earlier one is
returned. -/
theorem getMatchingQRM_first_witness :
    getMatchingQRM [wQRM1, wQRM2] wQTask = some wQRM1 :=
  (getMatchingQRM_first [wQRM1, wQRM2] wQTask).2 [] wQRM1 [wQRM2] rfl (by simp) rfl

/-- Witness for the C7 theorem: the second discovered task resolves to no
QRM, so the pass aborts during resolving with that task's id and the
diagram is unchanged. -/
theorem startReplacementProcess_aborts_witness :
    startReplacementProcess 5 wDiagram (some wRoot) [wQRM1]
      = .ok (.abortedResolving wQTaskBad.id, wDiagram) :=
  startReplacementProcess_aborts_on_unresolved 5 wDiagram wRoot [wQRM1]
    [(wQTask, none)] [] wQTaskBad none rfl (by decide) rfl

/-- Witness for the C8 theorem: the doubly nested task is discovered and
is paired with the innermost container's registry element. -/
theorem getQuantMETasks_spec_witness :
    (wQTask, registryGet wDiagram (some wInner.id))
      ∈ getQuantMETasks (0 + 3) (fun i => registryGet wDiagram (some i)) wRootNested :=
  (getQuantMETasks_spec 0 (fun i => registryGet wDiagram (some i)) wRootNested).2
    wOuter wInner wQTask (List.mem_singleton.mpr rfl) rfl (List.mem_singleton.mpr rfl)
    rfl (List.mem_singleton.mpr rfl) rfl

/-- Witness for the C9 theorem: with required attributes available and an
empty QRM collection (so that nothing matches), `isReplaceable` still
returns `true`. -/
theorem isReplaceable_true_of_attrs_witness :
    isReplaceable (fun _ => true) [] wQTask = true :=
  isReplaceable_true_of_attrs (fun _ => true) [] wQTask rfl (by simp)

end QuantME
